import Mathlib

/-!
# BounceAnalog: a debounce filter for a thresholded analog input

A shallow embedding of `BounceAnalog/BounceAnalog.cpp`.

* The object's fields become a structure; every member function becomes a pure
  function from the state before the call to the state after it (and the value
  returned, when there is one).
* The platform primitives `millis()`, `analogRead(pin)` and `digitalRead(pin)`
  are inputs of a call: a `Platform` record gives the value each of them
  returns during that call.  Every `millis()` read of one call returns the same
  value.
* `unsigned long` is 32 bits wide, `uint16_t` 16 bits and the `state` register
  8 bits.  Unsigned values are natural numbers, reduced modulo the width where
  the C arithmetic wraps.  `int` values are integers; `/` on them is C division
  (truncation toward zero).  Signed overflow is undefined in C and outside the
  model.
* The build switch `BOUNCE_LOCK_OUT` is a boolean parameter of `attach` and
  `update`.
-/

/-- Fields of the C++ class.  The header declaring them is not part of the
sources at hand; the widths are those of the values stored into them:
`previous_millis` holds `millis()` readings (unsigned long), `interval_millis`
holds the `uint16_t` argument of `interval`, `state` is the 8-bit flag
register, the analog bounds hold `analogRead` readings (int). -/
structure BounceAnalog where
  previous_millis : Nat
  interval_millis : Nat
  state : Nat
  pin : Int
  m_analogMin : Int
  m_analogMax : Int
deriving DecidableEq

/-- Values returned by the platform primitives during one call. -/
structure Platform where
  millis : Nat
  analogRead : Int
  digitalRead : Int
deriving DecidableEq

namespace BounceAnalog

def DEBOUNCED_STATE : Nat := 0
def UNSTABLE_STATE : Nat := 1
def STATE_CHANGED : Nat := 3

/-- The avr-libc macro `_BV(bit)`, that is `1 << bit`. -/
def _BV (bit : Nat) : Nat := 1 <<< bit

/-- The value `~mask` as it acts on the 8-bit register: `state &= ~mask`
keeps exactly the register bits that are not in `mask`. -/
def not8 (mask : Nat) : Nat := 0xFF ^^^ mask

/-- Number of values of an `unsigned long`. -/
def ULONG : Nat := 2 ^ 32

/-- Number of values of a `uint16_t`. -/
def UINT16 : Nat := 2 ^ 16

/-- The C expression `a - b` on `unsigned long` operands: the difference
modulo `2 ^ 32`. -/
def subUL (a b : Nat) : Nat := (a % ULONG + ULONG - b % ULONG) % ULONG

/-- The constructor `BounceAnalog::BounceAnalog()`. -/
def new : BounceAnalog :=
  { previous_millis := 0
    interval_millis := 10
    state := 0
    pin := 0
    m_analogMin := 0
    m_analogMax := 1023 }

/-- The member `setCurrentAsMax()`. -/
def setCurrentAsMax (s : BounceAnalog) (hw : Platform) : BounceAnalog :=
  let val := hw.analogRead
  { s with m_analogMax := val }

/-- The member `attach(int pin)`. -/
def attach (BOUNCE_LOCK_OUT : Bool) (s : BounceAnalog) (hw : Platform) (pin : Int) :
    BounceAnalog :=
  let s := { s with pin := pin }
  let value := hw.analogRead
  let read : Bool := decide (value > (s.m_analogMax - s.m_analogMin).tdiv 2)
  let s := { s with state := 0 }
  let s := if read then { s with state := _BV DEBOUNCED_STATE ||| _BV UNSTABLE_STATE } else s
  if BOUNCE_LOCK_OUT then
    { s with previous_millis := 0 }
  else
    { s with previous_millis := hw.millis }

/-- The member `interval(uint16_t interval_millis)`; the argument is converted
to `uint16_t` at the call. -/
def interval (s : BounceAnalog) (interval_millis : Nat) : BounceAnalog :=
  { s with interval_millis := interval_millis % UINT16 }

/-- The member `update()`, in the build with `BOUNCE_LOCK_OUT` defined
(`true`) and in the default build (`false`).  Returns the value returned and
the state after the call. -/
def update (BOUNCE_LOCK_OUT : Bool) (s : BounceAnalog) (hw : Platform) :
    Bool × BounceAnalog :=
  if BOUNCE_LOCK_OUT then
    let s := { s with state := s.state &&& not8 (_BV STATE_CHANGED) }
    let s :=
      if subUL hw.millis s.previous_millis ≥ s.interval_millis then
        let currentState : Bool := hw.digitalRead != 0
        if (s.state &&& _BV DEBOUNCED_STATE != 0) != currentState then
          let s := { s with previous_millis := hw.millis }
          let s := { s with state := s.state ^^^ _BV DEBOUNCED_STATE }
          { s with state := s.state ||| _BV STATE_CHANGED }
        else s
      else s
    (s.state &&& _BV STATE_CHANGED != 0, s)
  else
    let value := hw.analogRead
    let currentState : Bool := decide (value > (s.m_analogMax - s.m_analogMin).tdiv 2)
    let s := { s with state := s.state &&& not8 (_BV STATE_CHANGED) }
    let s :=
      if currentState != (s.state &&& _BV UNSTABLE_STATE != 0) then
        let s := { s with previous_millis := hw.millis }
        { s with state := s.state ^^^ _BV UNSTABLE_STATE }
      else if subUL hw.millis s.previous_millis ≥ s.interval_millis then
        if (s.state &&& _BV DEBOUNCED_STATE != 0) != currentState then
          let s := { s with previous_millis := hw.millis }
          let s := { s with state := s.state ^^^ _BV DEBOUNCED_STATE }
          { s with state := s.state ||| _BV STATE_CHANGED }
        else s
      else s
    (s.state &&& _BV STATE_CHANGED != 0, s)

/-- The member `read()`. -/
def read (s : BounceAnalog) : Bool :=
  s.state &&& _BV DEBOUNCED_STATE != 0

/-- The member `rose()`. -/
def rose (s : BounceAnalog) : Bool :=
  (s.state &&& _BV DEBOUNCED_STATE != 0) && (s.state &&& _BV STATE_CHANGED != 0)

/-- The member `fell()`. -/
def fell (s : BounceAnalog) : Bool :=
  !(s.state &&& _BV DEBOUNCED_STATE != 0) && (s.state &&& _BV STATE_CHANGED != 0)

/-! ## The three flags of the state register -/

/-- Flag `debouncedValue`: bit `DEBOUNCED_STATE` of the register. -/
def debouncedValue (s : BounceAnalog) : Bool :=
  s.state &&& _BV DEBOUNCED_STATE != 0

/-- Flag `unstableCandidate`: bit `UNSTABLE_STATE` of the register. -/
def unstableCandidate (s : BounceAnalog) : Bool :=
  s.state &&& _BV UNSTABLE_STATE != 0

/-- Flag `changedSinceLastPoll`: bit `STATE_CHANGED` of the register. -/
def changedSinceLastPoll (s : BounceAnalog) : Bool :=
  s.state &&& _BV STATE_CHANGED != 0

/-- The raw boolean of the default build: the analog sample compared with half
the range, as computed in `attach` and in `update`. -/
def rawAnalog (s : BounceAnalog) (value : Int) : Bool :=
  decide (value > (s.m_analogMax - s.m_analogMin).tdiv 2)

/-- The raw boolean of the `BOUNCE_LOCK_OUT` build: the `digitalRead` value
converted to `bool`. -/
def rawDigital (d : Int) : Bool := d != 0

/-- The raw boolean an `update` call works with. -/
def rawInput (BOUNCE_LOCK_OUT : Bool) (s : BounceAnalog) (hw : Platform) : Bool :=
  if BOUNCE_LOCK_OUT then rawDigital hw.digitalRead else rawAnalog s hw.analogRead

/-- The unsigned elapsed-time test of `update`:
`millis() - previous_millis >= interval_millis`. -/
def intervalElapsed (s : BounceAnalog) (now : Nat) : Bool :=
  decide (subUL now s.previous_millis ≥ s.interval_millis)

/-- Runs `update` once per entry of `polls`, in order; gives for each call the
value returned and the state after it. -/
def run (BOUNCE_LOCK_OUT : Bool) (s : BounceAnalog) : List Platform → List (Bool × BounceAnalog)
  | [] => []
  | hw :: rest =>
    let r := update BOUNCE_LOCK_OUT s hw
    r :: run BOUNCE_LOCK_OUT r.2 rest

/-- Platform readings of a call in the default build, at clock value `t` with
analog sample `v`; `digitalRead` is not called in that build. -/
def analogPoll (t : Nat) (v : Int) : Platform := ⟨t, v, 0⟩

/-- Polls with analog sample 100 at the clock values `1, 2, ..., n`. -/
def lowPolls (n : Nat) : List Platform :=
  (List.range n).map (fun i => analogPoll (i + 1) 100)

/-- What a client sees of each call of a run: the value returned, then
`read()` and `fell()` called right after it. -/
def observe (rs : List (Bool × BounceAnalog)) : List (Bool × Bool × Bool) :=
  rs.map (fun r => (r.1, read r.2, fell r.2))

/-- The test `(bool)(x & _BV(k))` of bit `k` of `x`. -/
def bit (x k : Nat) : Bool := x &&& _BV k != 0

/-- At most one call of a run returned true. -/
def AtMostOneTrue (rs : List (Bool × BounceAnalog)) : Prop :=
  ∀ (i j : Nat) (ri rj : Bool × BounceAnalog),
    rs[i]? = some ri → rs[j]? = some rj → ri.1 = true → rj.1 = true → i = j

/-- Relative to a call of the run that returned true, `read()` gives `b`
after every earlier call and `!b` after that call and every later one. -/
def ReadsFlipAt (b : Bool) (rs : List (Bool × BounceAnalog)) : Prop :=
  ∀ (k : Nat) (rk : Bool × BounceAnalog), rs[k]? = some rk → rk.1 = true →
    ∀ (i : Nat) (ri : Bool × BounceAnalog),
      rs[i]? = some ri → read ri.2 = (if i < k then b else !b)

/-! ## Bit lemmas -/

theorem bit_def (x k : Nat) : (x &&& _BV k != 0) = bit x k := rfl

theorem bit_eq_testBit (x k : Nat) : bit x k = x.testBit k := by
  unfold bit _BV
  rw [Nat.one_shiftLeft, Nat.and_two_pow]
  cases h : x.testBit k <;> simp

theorem BV_eq_two_pow (k : Nat) : _BV k = 2 ^ k := by
  unfold _BV
  exact Nat.one_shiftLeft k

theorem bit_clear (x j i : Nat) :
    bit (x &&& not8 (_BV j)) i = (bit x i && (decide (i < 8) ^^ decide (j = i))) := by
  have h : (0xFF : Nat) = 2 ^ 8 - 1 := by norm_num
  rw [bit_eq_testBit, bit_eq_testBit, Nat.testBit_and, not8, Nat.testBit_xor, h,
    Nat.testBit_two_pow_sub_one, BV_eq_two_pow, Nat.testBit_two_pow]

theorem bit_flip (x j i : Nat) : bit (x ^^^ _BV j) i = (bit x i ^^ decide (j = i)) := by
  rw [bit_eq_testBit, bit_eq_testBit, Nat.testBit_xor, BV_eq_two_pow, Nat.testBit_two_pow]

theorem bit_set (x j i : Nat) : bit (x ||| _BV j) i = (bit x i || decide (j = i)) := by
  rw [bit_eq_testBit, bit_eq_testBit, Nat.testBit_or, BV_eq_two_pow, Nat.testBit_two_pow]

theorem bit_BV (j i : Nat) : bit (_BV j) i = decide (j = i) := by
  rw [bit_eq_testBit, BV_eq_two_pow, Nat.testBit_two_pow]

theorem bit_zero_left (i : Nat) : bit 0 i = false := by
  rw [bit_eq_testBit, Nat.zero_testBit]

/-- One call of `update` in the default build, flag by flag. -/
theorem update_stable_cases (s : BounceAnalog) (hw : Platform) :
    (update false s hw).2.interval_millis = s.interval_millis ∧
    (update false s hw).2.pin = s.pin ∧
    (update false s hw).2.m_analogMin = s.m_analogMin ∧
    (update false s hw).2.m_analogMax = s.m_analogMax ∧
    changedSinceLastPoll (update false s hw).2 = (update false s hw).1 ∧
    (if rawAnalog s hw.analogRead ≠ unstableCandidate s then
      (update false s hw).1 = false ∧
        debouncedValue (update false s hw).2 = debouncedValue s ∧
        unstableCandidate (update false s hw).2 = rawAnalog s hw.analogRead ∧
        (update false s hw).2.previous_millis = hw.millis
    else if intervalElapsed s hw.millis = true ∧ debouncedValue s ≠ rawAnalog s hw.analogRead then
      (update false s hw).1 = true ∧
        debouncedValue (update false s hw).2 = rawAnalog s hw.analogRead ∧
        unstableCandidate (update false s hw).2 = unstableCandidate s ∧
        (update false s hw).2.previous_millis = hw.millis
    else
      (update false s hw).1 = false ∧
        debouncedValue (update false s hw).2 = debouncedValue s ∧
        unstableCandidate (update false s hw).2 = unstableCandidate s ∧
        (update false s hw).2.previous_millis = s.previous_millis) := by
  simp only [update, rawAnalog, intervalElapsed, debouncedValue, unstableCandidate,
    changedSinceLastPoll, bit_def, DEBOUNCED_STATE, UNSTABLE_STATE, STATE_CHANGED]
  generalize decide (hw.analogRead > (s.m_analogMax - s.m_analogMin).tdiv 2) = raw
  split_ifs <;> simp_all [bit_clear, bit_flip, bit_set] <;> (try omega) <;>
    (cases h0 : bit s.state 0 <;> cases h1 : bit s.state 1 <;> simp_all)

/-- One call of `update` in the `BOUNCE_LOCK_OUT` build, flag by flag. -/
theorem update_lockout_cases (s : BounceAnalog) (hw : Platform) :
    (update true s hw).2.interval_millis = s.interval_millis ∧
    (update true s hw).2.pin = s.pin ∧
    (update true s hw).2.m_analogMin = s.m_analogMin ∧
    (update true s hw).2.m_analogMax = s.m_analogMax ∧
    changedSinceLastPoll (update true s hw).2 = (update true s hw).1 ∧
    unstableCandidate (update true s hw).2 = unstableCandidate s ∧
    (if subUL hw.millis s.previous_millis < s.interval_millis then
      (update true s hw).1 = false ∧
        (update true s hw).2 = { s with state := s.state &&& not8 (_BV STATE_CHANGED) } ∧
        debouncedValue (update true s hw).2 = debouncedValue s ∧
        (update true s hw).2.previous_millis = s.previous_millis
    else if rawDigital hw.digitalRead ≠ debouncedValue s then
      (update true s hw).1 = true ∧
        debouncedValue (update true s hw).2 = rawDigital hw.digitalRead ∧
        (update true s hw).2.previous_millis = hw.millis
    else
      (update true s hw).1 = false ∧
        debouncedValue (update true s hw).2 = debouncedValue s ∧
        (update true s hw).2.previous_millis = s.previous_millis) := by
  simp only [update, rawDigital, debouncedValue, unstableCandidate,
    changedSinceLastPoll, bit_def, DEBOUNCED_STATE, UNSTABLE_STATE, STATE_CHANGED]
  generalize (hw.digitalRead != 0) = raw
  split_ifs <;> simp_all [bit_clear, bit_flip, bit_set]
  · omega
  · cases h0 : bit s.state 0 <;> simp_all

/-- Without wrap-around the unsigned difference is the ordinary one. -/
theorem subUL_eq_sub (a b : Nat) (hba : b ≤ a) (ha : a < ULONG) : subUL a b = a - b := by
  unfold subUL
  have hb : b < ULONG := lt_of_le_of_lt hba ha
  rw [Nat.mod_eq_of_lt ha, Nat.mod_eq_of_lt hb]
  have h : a + ULONG - b = (a - b) + ULONG := by omega
  rw [h, Nat.add_mod_right, Nat.mod_eq_of_lt (by omega)]

/-! ## Runs of calls -/

theorem run_nil (lockOut : Bool) (s : BounceAnalog) : run lockOut s [] = [] := rfl

theorem run_cons (lockOut : Bool) (s : BounceAnalog) (p : Platform) (ps : List Platform) :
    run lockOut s (p :: ps)
      = update lockOut s p :: run lockOut (update lockOut s p).2 ps := rfl

/-- While every call of a run falls in the lockout window of the starting
state, every call returns false and `read()` keeps its value. -/
theorem locked_run (s : BounceAnalog) (polls : List Platform)
    (h : ∀ p ∈ polls, subUL p.millis s.previous_millis < s.interval_millis) :
    ∀ r ∈ run true s polls, r.1 = false ∧ read r.2 = read s := by
  induction polls generalizing s with
  | nil => intro r hr; simp [run_nil] at hr
  | cons p ps ih =>
    intro r hr
    have hc := update_lockout_cases s p
    have h7 := hc.2.2.2.2.2.2
    rw [if_pos (h p (List.mem_cons_self p ps))] at h7
    have hread : read (update true s p).2 = read s := h7.2.2.1
    rw [run_cons, List.mem_cons] at hr
    rcases hr with hr | hr
    · subst hr
      exact ⟨h7.1, hread⟩
    · have h2 : ∀ q ∈ ps, subUL q.millis (update true s p).2.previous_millis
          < (update true s p).2.interval_millis := by
        intro q hq
        rw [h7.2.2.2, hc.1]
        exact h q (List.mem_cons_of_mem p hq)
      have := ih (update true s p).2 h2 r hr
      exact ⟨this.1, by rw [this.2, hread]⟩

theorem atMostOneTrue_of_all_false (rs : List (Bool × BounceAnalog))
    (h : ∀ r ∈ rs, r.1 = false) : AtMostOneTrue rs := by
  intro i j ri rj hi _ hti _
  have := h ri (List.getElem?_mem hi)
  rw [this] at hti
  cases hti

theorem atMostOneTrue_cons_false (r : Bool × BounceAnalog) (rs : List (Bool × BounceAnalog))
    (hr : r.1 = false) (h : AtMostOneTrue rs) : AtMostOneTrue (r :: rs) := by
  intro i j ri rj hi hj hti htj
  cases i with
  | zero =>
    simp only [List.getElem?_cons_zero, Option.some.injEq] at hi
    rw [← hi, hr] at hti
    cases hti
  | succ i =>
    cases j with
    | zero =>
      simp only [List.getElem?_cons_zero, Option.some.injEq] at hj
      rw [← hj, hr] at htj
      cases htj
    | succ j =>
      simp only [List.getElem?_cons_succ] at hi hj
      rw [h i j ri rj hi hj hti htj]

theorem atMostOneTrue_cons_true (r : Bool × BounceAnalog) (rs : List (Bool × BounceAnalog))
    (h : ∀ x ∈ rs, x.1 = false) : AtMostOneTrue (r :: rs) := by
  intro i j ri rj hi hj hti htj
  cases i with
  | zero =>
    cases j with
    | zero => rfl
    | succ j =>
      simp only [List.getElem?_cons_succ] at hj
      rw [h rj (List.getElem?_mem hj)] at htj
      cases htj
  | succ i =>
    simp only [List.getElem?_cons_succ] at hi
    rw [h ri (List.getElem?_mem hi)] at hti
    cases hti

theorem readsFlipAt_cons_false (b : Bool) (r : Bool × BounceAnalog)
    (rs : List (Bool × BounceAnalog)) (hr : r.1 = false) (hb : read r.2 = b)
    (h : ReadsFlipAt b rs) : ReadsFlipAt b (r :: rs) := by
  intro k rk hk htk i ri hi
  cases k with
  | zero =>
    simp only [List.getElem?_cons_zero, Option.some.injEq] at hk
    rw [← hk, hr] at htk
    cases htk
  | succ k =>
    simp only [List.getElem?_cons_succ] at hk
    cases i with
    | zero =>
      simp only [List.getElem?_cons_zero, Option.some.injEq] at hi
      rw [← hi, hb]
      simp
    | succ i =>
      simp only [List.getElem?_cons_succ] at hi
      rw [h k rk hk htk i ri hi]
      simp

theorem readsFlipAt_cons_true (b : Bool) (r : Bool × BounceAnalog)
    (rs : List (Bool × BounceAnalog)) (hb : read r.2 = !b)
    (h : ∀ x ∈ rs, x.1 = false ∧ read x.2 = !b) : ReadsFlipAt b (r :: rs) := by
  intro k rk hk htk i ri hi
  cases k with
  | zero =>
    cases i with
    | zero =>
      simp only [List.getElem?_cons_zero, Option.some.injEq] at hi
      rw [← hi, hb]
      simp
    | succ i =>
      simp only [List.getElem?_cons_succ] at hi
      rw [(h ri (List.getElem?_mem hi)).2]
      simp
  | succ k =>
    simp only [List.getElem?_cons_succ] at hk
    rw [(h rk (List.getElem?_mem hk)).1] at htk
    cases htk

/-- The calls of `update` leave the thresholds alone, so the raw boolean of a
sample is the same before and after a call. -/
theorem rawAnalog_update (s : BounceAnalog) (hw : Platform) (v : Int) :
    rawAnalog (update false s hw).2 v = rawAnalog s v := by
  have h := update_stable_cases s hw
  unfold rawAnalog
  rw [h.2.2.1, h.2.2.2.1]

/-- Default build: once both flags equal the raw boolean and the raw boolean
stays there, every call returns false and the flags stay. -/
theorem steady_stable (c : Bool) (polls : List Platform) (s : BounceAnalog)
    (hd : debouncedValue s = c) (hu : unstableCandidate s = c)
    (hraw : ∀ p ∈ polls, rawAnalog s p.analogRead = c) :
    ∀ r ∈ run false s polls, r.1 = false ∧ read r.2 = c := by
  induction polls generalizing s with
  | nil => intro r hr; simp [run_nil] at hr
  | cons p ps ih =>
    intro r hr
    have hc := update_stable_cases s p
    have h6 := hc.2.2.2.2.2
    have hp := hraw p (List.mem_cons_self p ps)
    rw [if_neg (by rw [hp, hu]; simp), if_neg (by rw [hp, hd]; simp)] at h6
    rw [run_cons, List.mem_cons] at hr
    rcases hr with hr | hr
    · subst hr
      exact ⟨h6.1, by rw [← hd]; exact h6.2.1⟩
    · refine ih (update false s p).2 (by rw [h6.2.1, hd]) (by rw [h6.2.2.1, hu]) ?_ r hr
      intro q hq
      rw [rawAnalog_update]
      exact hraw q (List.mem_cons_of_mem p hq)

/-- Default build, change pending (`debouncedValue = b`, candidate `!b`) and the
raw boolean stays `!b`: at most one call returns true, and `read()` flips at
that call. -/
theorem pending_stable (b : Bool) (polls : List Platform) (s : BounceAnalog)
    (hd : debouncedValue s = b) (hu : unstableCandidate s = !b)
    (hraw : ∀ p ∈ polls, rawAnalog s p.analogRead = !b) :
    AtMostOneTrue (run false s polls) ∧ ReadsFlipAt b (run false s polls) := by
  induction polls generalizing s with
  | nil =>
    constructor
    · intro i j ri rj hi; simp [run_nil] at hi
    · intro k rk hk; simp [run_nil] at hk
  | cons p ps ih =>
    have hc := update_stable_cases s p
    have h6 := hc.2.2.2.2.2
    have hp := hraw p (List.mem_cons_self p ps)
    have hraw2 : ∀ q ∈ ps, rawAnalog (update false s p).2 q.analogRead = !b := by
      intro q hq
      rw [rawAnalog_update]
      exact hraw q (List.mem_cons_of_mem p hq)
    rw [if_neg (by rw [hp, hu]; simp)] at h6
    rw [run_cons]
    split_ifs at h6 with h2
    · have hst := steady_stable (!b) ps (update false s p).2 (by rw [h6.2.1, hp])
        (by rw [h6.2.2.1, hu]) hraw2
      exact ⟨atMostOneTrue_cons_true _ _ (fun x hx => (hst x hx).1),
        readsFlipAt_cons_true b _ _ (by rw [← hp]; exact h6.2.1) hst⟩
    · have hi := ih (update false s p).2 (by rw [h6.2.1, hd]) (by rw [h6.2.2.1, hu]) hraw2
      exact ⟨atMostOneTrue_cons_false _ _ h6.1 hi.1,
        readsFlipAt_cons_false b _ _ h6.1 (by rw [← hd]; exact h6.2.1) hi.2⟩

/-- Default build, change pending and the raw boolean stays `!b`: a call at
which the elapsed-time test holds makes some call of the run return true. -/
theorem pending_stable_exists (b : Bool) (polls : List Platform) (s : BounceAnalog)
    (hd : debouncedValue s = b) (hu : unstableCandidate s = !b)
    (hraw : ∀ p ∈ polls, rawAnalog s p.analogRead = !b)
    (hex : ∃ p ∈ polls, subUL p.millis s.previous_millis ≥ s.interval_millis) :
    ∃ (k : Nat) (rk : Bool × BounceAnalog), (run false s polls)[k]? = some rk ∧ rk.1 = true := by
  induction polls generalizing s with
  | nil => obtain ⟨p, hp, _⟩ := hex; cases hp
  | cons p ps ih =>
    have hc := update_stable_cases s p
    have h6 := hc.2.2.2.2.2
    have hp := hraw p (List.mem_cons_self p ps)
    rw [if_neg (by rw [hp, hu]; simp)] at h6
    by_cases hel : subUL p.millis s.previous_millis ≥ s.interval_millis
    · have hcond : intervalElapsed s p.millis = true ∧
          debouncedValue s ≠ rawAnalog s p.analogRead := by
        refine ⟨by simp [intervalElapsed, hel], ?_⟩
        rw [hp, hd]; cases b <;> simp
      rw [if_pos hcond] at h6
      exact ⟨0, update false s p, by rw [run_cons]; simp, h6.1⟩
    · have hcond : ¬ (intervalElapsed s p.millis = true ∧
          debouncedValue s ≠ rawAnalog s p.analogRead) := by
        intro h
        simp [intervalElapsed] at h
        exact hel h.1
      rw [if_neg hcond] at h6
      have hex2 : ∃ q ∈ ps, subUL q.millis (update false s p).2.previous_millis
          ≥ (update false s p).2.interval_millis := by
        obtain ⟨q, hq, hqe⟩ := hex
        rw [List.mem_cons] at hq
        rcases hq with hq | hq
        · subst hq; exact absurd hqe hel
        · exact ⟨q, hq, by rw [h6.2.2.2, hc.1]; exact hqe⟩
      have hraw2 : ∀ q ∈ ps, rawAnalog (update false s p).2 q.analogRead = !b := by
        intro q hq
        rw [rawAnalog_update]
        exact hraw q (List.mem_cons_of_mem p hq)
      obtain ⟨k, rk, hk, hkt⟩ := ih (update false s p).2 (by rw [h6.2.1, hd])
        (by rw [h6.2.2.1, hu]) hraw2 hex2
      exact ⟨k + 1, rk, by rw [run_cons]; simpa using hk, hkt⟩

/-- Default build, settled at `b`, first call with raw boolean `!b`: the call
returns false, keeps `debouncedValue`, sets the candidate to `!b` and restarts
the timer at its clock value. -/
theorem settled_first_flip (b : Bool) (s : BounceAnalog) (p : Platform)
    (hd : debouncedValue s = b) (hu : unstableCandidate s = b)
    (hp : rawAnalog s p.analogRead = !b) :
    (update false s p).1 = false ∧ debouncedValue (update false s p).2 = b ∧
    unstableCandidate (update false s p).2 = (!b) ∧
    (update false s p).2.previous_millis = p.millis ∧
    (update false s p).2.interval_millis = s.interval_millis := by
  have hc := update_stable_cases s p
  have h6 := hc.2.2.2.2.2
  rw [if_pos (by rw [hp, hu]; cases b <;> simp)] at h6
  exact ⟨h6.1, by rw [h6.2.1, hd], by rw [h6.2.2.1, hp], h6.2.2.2, hc.1⟩

/-- Default build: while `debouncedValue = b`, with either the candidate at
`b`, or the candidate at `!b` and the timer restarted at or after `T`: polls at
non-decreasing clock values below `2 ^ 32` whose raw boolean is `b` before `T`
and `!b` from `T` on return false and keep `read() = b` as long as their clock
value is below `T + interval_millis`. -/
theorem hold_before_deadline (b : Bool) (T : Nat) (polls : List Platform) (s : BounceAnalog)
    (hd : debouncedValue s = b)
    (hst : unstableCandidate s = b ∨
      (unstableCandidate s = (!b) ∧ T ≤ s.previous_millis ∧
        ∀ p ∈ polls, s.previous_millis ≤ p.millis))
    (hmono : polls.Pairwise (fun p q => p.millis ≤ q.millis))
    (hwrap : ∀ p ∈ polls, p.millis < ULONG)
    (hraw : ∀ p ∈ polls, rawAnalog s p.analogRead = if p.millis < T then b else !b) :
    ∀ (i : Nat) (p : Platform) (r : Bool × BounceAnalog),
      polls[i]? = some p → (run false s polls)[i]? = some r →
      p.millis < T + s.interval_millis → r.1 = false ∧ read r.2 = b := by
  induction polls generalizing s with
  | nil => intro i p r hp; simp at hp
  | cons p ps ih =>
    have hc := update_stable_cases s p
    have h6 := hc.2.2.2.2.2
    have hp := hraw p (List.mem_cons_self p ps)
    have hpw := hwrap p (List.mem_cons_self p ps)
    rw [List.pairwise_cons] at hmono
    have hraw2 : ∀ q ∈ ps, rawAnalog (update false s p).2 q.analogRead
        = if q.millis < T then b else !b := by
      intro q hq
      rw [rawAnalog_update]
      exact hraw q (List.mem_cons_of_mem p hq)
    have hwrap2 : ∀ q ∈ ps, q.millis < ULONG := fun q hq => hwrap q (List.mem_cons_of_mem p hq)
    -- what is left to show once the first call is known to return false and keep the value
    have finish : (update false s p).1 = false → debouncedValue (update false s p).2 = b →
        (unstableCandidate (update false s p).2 = b ∨
          (unstableCandidate (update false s p).2 = (!b) ∧
            T ≤ (update false s p).2.previous_millis ∧
            ∀ q ∈ ps, (update false s p).2.previous_millis ≤ q.millis)) →
        ∀ (i : Nat) (q : Platform) (r : Bool × BounceAnalog),
          (p :: ps)[i]? = some q → (run false s (p :: ps))[i]? = some r →
          q.millis < T + s.interval_millis → r.1 = false ∧ read r.2 = b := by
      intro hr1 hd2 hst2 i q r hq hr hlt
      rw [run_cons] at hr
      cases i with
      | zero =>
        simp only [List.getElem?_cons_zero, Option.some.injEq] at hr
        subst hr
        exact ⟨hr1, hd2⟩
      | succ i =>
        simp only [List.getElem?_cons_succ] at hq hr
        exact ih (update false s p).2 hd2 hst2 hmono.2 hwrap2 hraw2 i q r hq hr
          (by rw [hc.1]; exact hlt)
    rcases hst with hu | ⟨hu, hTp, hle⟩
    · by_cases hT : p.millis < T
      · rw [if_pos hT] at hp
        rw [if_neg (by rw [hp, hu]; simp), if_neg (by rw [hp, hd]; simp)] at h6
        exact finish h6.1 (by rw [h6.2.1, hd]) (Or.inl (by rw [h6.2.2.1, hu]))
      · rw [if_neg hT] at hp
        have h1 := settled_first_flip b s p hd hu hp
        refine finish h1.1 h1.2.1 (Or.inr ⟨h1.2.2.1, ?_, ?_⟩)
        · rw [h1.2.2.2.1]; omega
        · intro q hq; rw [h1.2.2.2.1]; exact hmono.1 q hq
    · have hpp := hle p (List.mem_cons_self p ps)
      have hT : ¬ p.millis < T := by omega
      rw [if_neg hT] at hp
      rw [if_neg (by rw [hp, hu]; simp)] at h6
      by_cases hel : subUL p.millis s.previous_millis ≥ s.interval_millis
      · rw [subUL_eq_sub _ _ hpp hpw] at hel
        intro i q r hq hr hlt
        have hqge : p.millis ≤ q.millis := by
          cases i with
          | zero =>
            simp only [List.getElem?_cons_zero, Option.some.injEq] at hq
            rw [hq]
          | succ i =>
            simp only [List.getElem?_cons_succ] at hq
            exact hmono.1 q (List.getElem?_mem hq)
        omega
      · have hcond : ¬ (intervalElapsed s p.millis = true ∧
            debouncedValue s ≠ rawAnalog s p.analogRead) := by
          intro h
          simp [intervalElapsed] at h
          exact hel h.1
        rw [if_neg hcond] at h6
        refine finish h6.1 (by rw [h6.2.1, hd]) (Or.inr ⟨by rw [h6.2.2.1, hu], ?_, ?_⟩)
        · rw [h6.2.2.2]; exact hTp
        · intro q hq; rw [h6.2.2.2]; exact hle q (List.mem_cons_of_mem p hq)

/-- Lockout build: a call that returns true leaves `debouncedValue` at the raw
boolean and `previous_millis` at the clock value, and passed the elapsed-time
test. -/
theorem lockout_accepted (s : BounceAnalog) (p : Platform) (h : (update true s p).1 = true) :
    debouncedValue (update true s p).2 = rawDigital p.digitalRead ∧
    (update true s p).2.previous_millis = p.millis ∧
    s.interval_millis ≤ subUL p.millis s.previous_millis := by
  have hc := update_lockout_cases s p
  have h7 := hc.2.2.2.2.2.2
  split_ifs at h7 with h1 h2
  · rw [h7.1] at h; cases h
  · exact ⟨h7.2.1, h7.2.2, Nat.not_lt.mp h1⟩
  · rw [h7.1] at h; cases h

/-- Lockout build: a call that returns false keeps `debouncedValue` and
`previous_millis`. -/
theorem lockout_rejected (s : BounceAnalog) (p : Platform) (h : (update true s p).1 = false) :
    debouncedValue (update true s p).2 = debouncedValue s ∧
    (update true s p).2.previous_millis = s.previous_millis := by
  have hc := update_lockout_cases s p
  have h7 := hc.2.2.2.2.2.2
  split_ifs at h7 with h1 h2
  · exact ⟨h7.2.2.1, h7.2.2.2⟩
  · rw [h7.1] at h; cases h
  · exact ⟨h7.2.1, h7.2.2⟩

/-- Lockout build: a call whose raw boolean equals `debouncedValue` returns
false. -/
theorem lockout_same_raw (s : BounceAnalog) (p : Platform)
    (h : rawDigital p.digitalRead = debouncedValue s) : (update true s p).1 = false := by
  have hc := update_lockout_cases s p
  have h7 := hc.2.2.2.2.2.2
  split_ifs at h7 with h1 h2
  · exact h7.1
  · exact absurd h h2
  · exact h7.1

/-- Lockout build: once `debouncedValue` equals the raw boolean and the raw
boolean stays there, every call returns false. -/
theorem steady_lockout (c : Bool) (polls : List Platform) (s : BounceAnalog)
    (hd : debouncedValue s = c) (hraw : ∀ p ∈ polls, rawDigital p.digitalRead = c) :
    ∀ r ∈ run true s polls, r.1 = false ∧ read r.2 = c := by
  induction polls generalizing s with
  | nil => intro r hr; simp [run_nil] at hr
  | cons p ps ih =>
    intro r hr
    have hp := hraw p (List.mem_cons_self p ps)
    have hf := lockout_same_raw s p (by rw [hp, hd])
    have hk := lockout_rejected s p hf
    rw [run_cons, List.mem_cons] at hr
    rcases hr with hr | hr
    · subst hr
      exact ⟨hf, by rw [← hd]; exact hk.1⟩
    · exact ih (update true s p).2 (by rw [hk.1, hd])
        (fun q hq => hraw q (List.mem_cons_of_mem p hq)) r hr

/-- Lockout build, raw boolean constant over the run: at most one call
returns true. -/
theorem const_lockout (c : Bool) (polls : List Platform) (s : BounceAnalog)
    (hraw : ∀ p ∈ polls, rawDigital p.digitalRead = c) : AtMostOneTrue (run true s polls) := by
  induction polls generalizing s with
  | nil => intro i j ri rj hi; simp [run_nil] at hi
  | cons p ps ih =>
    have hp := hraw p (List.mem_cons_self p ps)
    have hraw2 : ∀ q ∈ ps, rawDigital q.digitalRead = c :=
      fun q hq => hraw q (List.mem_cons_of_mem p hq)
    rw [run_cons]
    cases hres : (update true s p).1 with
    | true =>
      have ha := lockout_accepted s p hres
      have hst := steady_lockout c ps (update true s p).2 (by rw [ha.1, hp]) hraw2
      exact atMostOneTrue_cons_true _ _ (fun x hx => (hst x hx).1)
    | false => exact atMostOneTrue_cons_false _ _ hres (ih (update true s p).2 hraw2)

/-- Default build, raw boolean constant over the run: at most one call returns
true. -/
theorem const_stable (c : Bool) (polls : List Platform) (s : BounceAnalog)
    (hraw : ∀ p ∈ polls, rawAnalog s p.analogRead = c) : AtMostOneTrue (run false s polls) := by
  cases polls with
  | nil => intro i j ri rj hi; simp [run_nil] at hi
  | cons p ps =>
    have hp := hraw p (List.mem_cons_self p ps)
    have hraw2 : ∀ q ∈ ps, rawAnalog (update false s p).2 q.analogRead = c := by
      intro q hq
      rw [rawAnalog_update]
      exact hraw q (List.mem_cons_of_mem p hq)
    have hc := update_stable_cases s p
    have h6 := hc.2.2.2.2.2
    -- after the first call the candidate is the raw boolean
    have hu : unstableCandidate (update false s p).2 = c := by
      split_ifs at h6 with h1 h2
      · rw [h6.2.2.1, hp]
      · rw [h6.2.2.1, ← hp]; exact (not_not.mp h1).symm
      · rw [h6.2.2.1, ← hp]; exact (not_not.mp h1).symm
    rw [run_cons]
    cases hres : (update false s p).1 with
    | true =>
      have hd : debouncedValue (update false s p).2 = c := by
        split_ifs at h6 with h1 h2
        · rw [h6.1] at hres; cases hres
        · rw [h6.2.1, hp]
        · rw [h6.1] at hres; cases hres
      have hst := steady_stable c ps (update false s p).2 hd hu hraw2
      exact atMostOneTrue_cons_true _ _ (fun x hx => (hst x hx).1)
    | false =>
      apply atMostOneTrue_cons_false _ _ hres
      by_cases hd : debouncedValue (update false s p).2 = c
      · have hst := steady_stable c ps (update false s p).2 hd hu hraw2
        exact atMostOneTrue_of_all_false _ (fun x hx => (hst x hx).1)
      · have hd2 : debouncedValue (update false s p).2 = !c := by
          cases c <;> simpa using hd
        exact (pending_stable (!c) ps (update false s p).2 hd2 (by rw [hu]; simp)
          (by simpa using hraw2)).1

/-- Lockout build: when `previous_millis` is at most every clock value of the
run, and these are non-decreasing and below `2 ^ 32`, a call that returns true
comes at least `interval_millis` after `previous_millis`. -/
theorem lockout_after (polls : List Platform) (s : BounceAnalog)
    (hle : ∀ p ∈ polls, s.previous_millis ≤ p.millis)
    (hmono : polls.Pairwise (fun p q => p.millis ≤ q.millis))
    (hwrap : ∀ p ∈ polls, p.millis < ULONG) :
    ∀ (j : Nat) (pj : Platform) (rj : Bool × BounceAnalog),
      polls[j]? = some pj → (run true s polls)[j]? = some rj → rj.1 = true →
      s.previous_millis + s.interval_millis ≤ pj.millis := by
  induction polls generalizing s with
  | nil => intro j pj rj hp; simp at hp
  | cons p ps ih =>
    intro j pj rj hpj hrj htj
    have hpp := hle p (List.mem_cons_self p ps)
    have hpw := hwrap p (List.mem_cons_self p ps)
    rw [List.pairwise_cons] at hmono
    rw [run_cons] at hrj
    cases j with
    | zero =>
      simp only [List.getElem?_cons_zero, Option.some.injEq] at hpj hrj
      subst hpj hrj
      have ha := lockout_accepted s p htj
      rw [subUL_eq_sub _ _ hpp hpw] at ha
      omega
    | succ j =>
      simp only [List.getElem?_cons_succ] at hpj hrj
      have hint : (update true s p).2.interval_millis = s.interval_millis :=
        (update_lockout_cases s p).1
      have hprev : s.previous_millis ≤ (update true s p).2.previous_millis ∧
          (update true s p).2.previous_millis ≤ p.millis := by
        cases hres : (update true s p).1 with
        | true => rw [(lockout_accepted s p hres).2.1]; exact ⟨hpp, le_refl _⟩
        | false => rw [(lockout_rejected s p hres).2]; exact ⟨le_refl _, hpp⟩
      have := ih (update true s p).2
        (fun q hq => le_trans hprev.2 (hmono.1 q hq)) hmono.2
        (fun q hq => hwrap q (List.mem_cons_of_mem p hq)) j pj rj hpj hrj htj
      rw [hint] at this
      omega

/-! ## Single calls -/

/-- Claim C1.  One `update` call of the default (stability-timeout) build, for
every state, sample and clock value, with `raw` the sample compared with half
the range: (a) if `raw` differs from `unstableCandidate`, the call stores
`raw` there, stores the clock value in `previous_millis`, keeps
`debouncedValue` and returns false; (b) otherwise, if the unsigned difference
`millis() - previous_millis` is at least `interval_millis` and
`debouncedValue` differs from `raw`, it flips `debouncedValue`, stores the
clock value and returns true; (c) otherwise the two flags and
`previous_millis` are unchanged and it returns false.  In all cases
`changedSinceLastPoll` afterwards is the value returned. -/
theorem C1_stable_update_cases (s : BounceAnalog) (hw : Platform) :
    changedSinceLastPoll (update false s hw).2 = (update false s hw).1 ∧
    (if decide (hw.analogRead > (s.m_analogMax - s.m_analogMin).tdiv 2) ≠ unstableCandidate s then
      unstableCandidate (update false s hw).2
          = decide (hw.analogRead > (s.m_analogMax - s.m_analogMin).tdiv 2) ∧
        (update false s hw).2.previous_millis = hw.millis ∧
        debouncedValue (update false s hw).2 = debouncedValue s ∧
        (update false s hw).1 = false
    else if subUL hw.millis s.previous_millis ≥ s.interval_millis ∧
        debouncedValue s ≠ decide (hw.analogRead > (s.m_analogMax - s.m_analogMin).tdiv 2) then
      debouncedValue (update false s hw).2 = (!debouncedValue s) ∧
        (update false s hw).2.previous_millis = hw.millis ∧
        (update false s hw).1 = true
    else
      debouncedValue (update false s hw).2 = debouncedValue s ∧
        unstableCandidate (update false s hw).2 = unstableCandidate s ∧
        (update false s hw).2.previous_millis = s.previous_millis ∧
        (update false s hw).1 = false) := by
  have h := update_stable_cases s hw
  simp only [rawAnalog, intervalElapsed, decide_eq_true_eq] at h
  refine ⟨h.2.2.2.2.1, ?_⟩
  have h6 := h.2.2.2.2.2
  split_ifs at h6 ⊢ with h1 h2
  · exact ⟨h6.2.2.1, h6.2.2.2, h6.2.1, h6.1⟩
  · refine ⟨?_, h6.2.2.2, h6.1⟩
    rw [h6.2.1]
    cases hd : debouncedValue s <;>
      cases hr : decide (hw.analogRead > (s.m_analogMax - s.m_analogMin).tdiv 2) <;>
      simp_all
  · exact ⟨h6.2.1, h6.2.2.1, h6.2.2.2, h6.1⟩

/-- Claim C5.  In both builds, for every state and every input, `update`
returns true exactly when `debouncedValue` after the call differs from
`debouncedValue` before it, and the value returned is `changedSinceLastPoll`
after the call, whatever that flag was before. -/
theorem C5_result_iff_debounced_flipped (lockOut : Bool) (s : BounceAnalog) (hw : Platform) :
    ((update lockOut s hw).1 = true ↔
      debouncedValue (update lockOut s hw).2 ≠ debouncedValue s) ∧
    (update lockOut s hw).1 = changedSinceLastPoll (update lockOut s hw).2 := by
  cases lockOut
  · have h := update_stable_cases s hw
    refine ⟨?_, h.2.2.2.2.1.symm⟩
    have h6 := h.2.2.2.2.2
    split_ifs at h6 with h1 h2
    · simp [h6.1, h6.2.1]
    · rw [h6.1, h6.2.1]
      simpa using fun e => h2.2 e.symm
    · simp [h6.1, h6.2.1]
  · have h := update_lockout_cases s hw
    refine ⟨?_, h.2.2.2.2.1.symm⟩
    have h7 := h.2.2.2.2.2.2
    split_ifs at h7 with h1 h2
    · simp [h7.1, h7.2.2.1]
    · rw [h7.1, h7.2.1]
      simpa using h2
    · simp [h7.1, h7.2.1]

/-- Claim C6.  After `attach(pin)` with sample `v`, from every state:
`debouncedValue` and `unstableCandidate` both equal
`v > (m_analogMax - m_analogMin) / 2`, `changedSinceLastPoll` is false, `pin`
is the argument, `previous_millis` is the clock value in the default build and
0 in the `BOUNCE_LOCK_OUT` build; and the result is the same whatever `state`
and `previous_millis` were before. -/
theorem C6_attach_reinitialises (lockOut : Bool) (s : BounceAnalog) (hw : Platform) (pin : Int) :
    debouncedValue (attach lockOut s hw pin)
        = decide (hw.analogRead > (s.m_analogMax - s.m_analogMin).tdiv 2) ∧
    unstableCandidate (attach lockOut s hw pin)
        = decide (hw.analogRead > (s.m_analogMax - s.m_analogMin).tdiv 2) ∧
    changedSinceLastPoll (attach lockOut s hw pin) = false ∧
    (attach lockOut s hw pin).pin = pin ∧
    (attach lockOut s hw pin).previous_millis = (if lockOut then 0 else hw.millis) ∧
    (∀ st pm : Nat,
      attach lockOut { s with state := st, previous_millis := pm } hw pin
        = attach lockOut s hw pin) := by
  by_cases h : hw.analogRead > (s.m_analogMax - s.m_analogMin).tdiv 2 <;> cases lockOut <;>
    simp [attach, debouncedValue, unstableCandidate, changedSinceLastPoll, bit_def,
      DEBOUNCED_STATE, UNSTABLE_STATE, STATE_CHANGED, h, bit_set, bit_BV, bit_zero_left]

/-- Claim C7.  Lockout window of the `BOUNCE_LOCK_OUT` build: for every state
and every raw input, if the unsigned difference `millis() - previous_millis`
is below `interval_millis`, `update` returns false and changes nothing but
the `changedSinceLastPoll` bit, which it clears.  In particular, with an
interval of 50 and the last transition accepted at clock value 0
(`previous_millis = 0`), every call at a clock value below 50 returns false
and leaves `read()` as it was, whatever the raw input is. -/
theorem C7_lockout_window :
    (∀ (s : BounceAnalog) (hw : Platform),
      subUL hw.millis s.previous_millis < s.interval_millis →
        (update true s hw).1 = false ∧
        (update true s hw).2 = { s with state := s.state &&& not8 (_BV STATE_CHANGED) } ∧
        debouncedValue (update true s hw).2 = debouncedValue s ∧
        unstableCandidate (update true s hw).2 = unstableCandidate s ∧
        changedSinceLastPoll (update true s hw).2 = false ∧
        (update true s hw).2.previous_millis = s.previous_millis) ∧
    (∀ (s : BounceAnalog) (polls : List Platform),
      s.interval_millis = 50 → s.previous_millis = 0 → (∀ p ∈ polls, p.millis < 50) →
        ∀ r ∈ run true s polls, r.1 = false ∧ read r.2 = read s) := by
  constructor
  · intro s hw h
    have hc := update_lockout_cases s hw
    have h7 := hc.2.2.2.2.2.2
    rw [if_pos h] at h7
    exact ⟨h7.1, h7.2.1, h7.2.2.1, hc.2.2.2.2.2.1, by rw [hc.2.2.2.2.1, h7.1], h7.2.2.2⟩
  · intro s polls hi h0 hlt
    apply locked_run s polls
    intro p hp
    rw [h0, hi]
    have := hlt p hp
    rw [subUL_eq_sub _ _ (Nat.zero_le _) (by unfold ULONG; omega)]
    omega

/-- Witness for C7: a register with all bits set, locked out at clock 20; and
after a rise accepted at clock 0, polls at 0, 20 and 49 with the raw input
toggling. -/
theorem C7_lockout_window_witness :
    ((update true ⟨0, 50, 255, 4, 0, 1023⟩ ⟨20, 0, 0⟩).1 = false ∧
      (update true ⟨0, 50, 255, 4, 0, 1023⟩ ⟨20, 0, 0⟩).2 = ⟨0, 50, 247, 4, 0, 1023⟩) ∧
    ∀ r ∈ run true ⟨0, 50, 9, 4, 0, 1023⟩ [⟨0, 0, 0⟩, ⟨20, 0, 1⟩, ⟨49, 0, 0⟩],
      r.1 = false ∧ read r.2 = read ⟨0, 50, 9, 4, 0, 1023⟩ :=
  ⟨⟨(C7_lockout_window.1 ⟨0, 50, 255, 4, 0, 1023⟩ ⟨20, 0, 0⟩ (by decide)).1,
    (C7_lockout_window.1 ⟨0, 50, 255, 4, 0, 1023⟩ ⟨20, 0, 0⟩ (by decide)).2.1⟩,
   C7_lockout_window.2 ⟨0, 50, 9, 4, 0, 1023⟩ [⟨0, 0, 0⟩, ⟨20, 0, 1⟩, ⟨49, 0, 0⟩]
     rfl rfl (by decide)⟩

/-- Claim C8.  Lockout acceptance of the `BOUNCE_LOCK_OUT` build: for every
state in which the unsigned difference `millis() - previous_millis` is at
least `interval_millis`, if the raw boolean differs from `debouncedValue` the
call flips `debouncedValue`, stores the clock value in `previous_millis` and
returns true; if it equals `debouncedValue`, both are unchanged and the call
returns false.  No call modifies `unstableCandidate`. -/
theorem C8_lockout_acceptance (s : BounceAnalog) (hw : Platform) :
    unstableCandidate (update true s hw).2 = unstableCandidate s ∧
    (subUL hw.millis s.previous_millis ≥ s.interval_millis →
      if (hw.digitalRead != 0) ≠ debouncedValue s then
        debouncedValue (update true s hw).2 = (!debouncedValue s) ∧
          (update true s hw).2.previous_millis = hw.millis ∧
          (update true s hw).1 = true
      else
        debouncedValue (update true s hw).2 = debouncedValue s ∧
          (update true s hw).2.previous_millis = s.previous_millis ∧
          (update true s hw).1 = false) := by
  have hc := update_lockout_cases s hw
  refine ⟨hc.2.2.2.2.2.1, fun hge => ?_⟩
  have h7 := hc.2.2.2.2.2.2
  rw [if_neg (Nat.not_lt.mpr hge)] at h7
  simp only [rawDigital] at h7
  split_ifs at h7 ⊢ with h1
  · refine ⟨?_, h7.2.2, h7.1⟩
    rw [h7.2.1]
    cases hd : debouncedValue s <;> cases hr : (hw.digitalRead != 0) <;> simp_all
  · exact ⟨h7.2.1, h7.2.2, h7.1⟩

/-- Witness for C8: interval 50, last transition at 0, a call at clock 50 with
the raw input high while `debouncedValue` is low. -/
theorem C8_lockout_acceptance_witness :
    debouncedValue (update true ⟨0, 50, 0, 4, 0, 1023⟩ ⟨50, 0, 1⟩).2 = true ∧
    (update true ⟨0, 50, 0, 4, 0, 1023⟩ ⟨50, 0, 1⟩).2.previous_millis = 50 ∧
    (update true ⟨0, 50, 0, 4, 0, 1023⟩ ⟨50, 0, 1⟩).1 = true := by
  have h := (C8_lockout_acceptance ⟨0, 50, 0, 4, 0, 1023⟩ ⟨50, 0, 1⟩).2 (by decide)
  rw [if_pos (by decide)] at h
  exact h

/-! ## The scenario with interval 10 -/

/-- The polls of the scenario, written out. -/
theorem lowPolls_eleven :
    lowPolls 11 = [⟨1, 100, 0⟩, ⟨2, 100, 0⟩, ⟨3, 100, 0⟩, ⟨4, 100, 0⟩, ⟨5, 100, 0⟩,
      ⟨6, 100, 0⟩, ⟨7, 100, 0⟩, ⟨8, 100, 0⟩, ⟨9, 100, 0⟩, ⟨10, 100, 0⟩, ⟨11, 100, 0⟩] := by
  decide

/-- First low sample after a high attach: the candidate flips and the timer is
restarted at the clock value of this call. -/
theorem scenario_first_low (t0 t : Nat) (pin : Int) :
    update false ⟨t0, 10, 3, pin, 0, 1023⟩ ⟨t, 100, 0⟩ = (false, ⟨t, 10, 1, pin, 0, 1023⟩) := by
  have h : Int.tdiv 1023 2 = 511 := by decide
  simp only [update, not8, _BV, STATE_CHANGED, UNSTABLE_STATE, DEBOUNCED_STATE]
  simp [h]
  decide

/-- Low samples less than 10 ms after the timer was restarted at 1. -/
theorem scenario_waiting (t : Nat) (pin : Int) (h1 : 1 ≤ t) (h2 : t < 11) :
    update false ⟨1, 10, 1, pin, 0, 1023⟩ ⟨t, 100, 0⟩ = (false, ⟨1, 10, 1, pin, 0, 1023⟩) := by
  have h : Int.tdiv 1023 2 = 511 := by decide
  have h3 : ¬ (10 ≤ subUL t 1) := by
    rw [subUL_eq_sub _ _ h1 (by unfold ULONG; omega)]; omega
  simp only [update, not8, _BV, STATE_CHANGED, UNSTABLE_STATE, DEBOUNCED_STATE]
  simp [h, h3]

/-- Low sample 10 ms after the timer was restarted at 1. -/
theorem scenario_accept (pin : Int) :
    update false ⟨1, 10, 1, pin, 0, 1023⟩ ⟨11, 100, 0⟩ = (true, ⟨11, 10, 8, pin, 0, 1023⟩) := by
  have h : Int.tdiv 1023 2 = 511 := by decide
  have h3 : subUL 11 1 = 10 := by decide
  simp only [update, not8, _BV, STATE_CHANGED, UNSTABLE_STATE, DEBOUNCED_STATE]
  simp [h, h3]

/-- Counterexample to C3 as stated: attach with sample 1000 (at clock 0, pin
0), then polls with sample 100 at t = 1, ..., 10.  The tenth poll, at t = 10,
returns false and `read()` is still true: the timer was restarted by the poll
at t = 1, and `10 - 1 < 10`. -/
theorem C3_counterexample :
    (observe (run false (attach false (interval new 10) (analogPoll 0 1000) 0) (lowPolls 10)))[9]?
      = some (false, true, false) ∧
    (observe (run false (attach false (interval new 10) (analogPoll 0 1000) 0) (lowPolls 10)))[9]?
      ≠ some (true, false, true) := by
  have ha : attach false (interval new 10) (analogPoll 0 1000) 0
      = ⟨0, 10, 3, 0, 0, 1023⟩ := rfl
  have hl : lowPolls 10 = [⟨1, 100, 0⟩, ⟨2, 100, 0⟩, ⟨3, 100, 0⟩, ⟨4, 100, 0⟩, ⟨5, 100, 0⟩,
      ⟨6, 100, 0⟩, ⟨7, 100, 0⟩, ⟨8, 100, 0⟩, ⟨9, 100, 0⟩, ⟨10, 100, 0⟩] := by
    decide
  rw [ha, hl]
  simp only [run, scenario_first_low, scenario_waiting, Nat.one_le_ofNat,
    Nat.reduceLT, le_refl, Nat.reduceLeDiff, observe, List.map, read, fell]
  decide

/-- Claim C3, amended.  Default build, interval 10: attach with sample 1000 at
any clock value and pin gives `read() = true`; with sample 100 from then on,
each of the polls at t = 1, ..., 10 returns false and leaves `read() = true`
(and `fell() = false`), and the poll at t = 11 returns true, after which
`read() = false` and `fell() = true`. -/
theorem C3_scenario_accepts_at_eleven (t0 : Nat) (pin : Int) :
    read (attach false (interval new 10) (analogPoll t0 1000) pin) = true ∧
    observe (run false (attach false (interval new 10) (analogPoll t0 1000) pin) (lowPolls 11))
      = [(false, true, false), (false, true, false), (false, true, false), (false, true, false),
         (false, true, false), (false, true, false), (false, true, false), (false, true, false),
         (false, true, false), (false, true, false), (true, false, true)] := by
  have ha : attach false (interval new 10) (analogPoll t0 1000) pin
      = ⟨t0, 10, 3, pin, 0, 1023⟩ := rfl
  rw [ha, lowPolls_eleven]
  simp only [run, scenario_first_low, scenario_waiting, scenario_accept, Nat.one_le_ofNat,
    Nat.reduceLT, le_refl, Nat.reduceLeDiff, observe, List.map, read, fell]
  decide

/-! ## Sequences of calls, default build -/

/-- Claim C2.  Settling without early acceptance, default build: from a state
with `debouncedValue = unstableCandidate = b`, for every sequence of polls at
non-decreasing clock values below `2 ^ 32` whose raw boolean is `b` at every
poll before `T` and `!b` at every poll at or after `T`: every poll whose clock
value is below `T + interval_millis` returns false, and `read()` is `b` after
it. -/
theorem C2_no_early_acceptance (b : Bool) (T : Nat) (s : BounceAnalog) (polls : List Platform)
    (hd : debouncedValue s = b) (hu : unstableCandidate s = b)
    (hmono : polls.Pairwise (fun p q => p.millis ≤ q.millis))
    (hwrap : ∀ p ∈ polls, p.millis < ULONG)
    (hraw : ∀ p ∈ polls, rawAnalog s p.analogRead = if p.millis < T then b else !b) :
    ∀ (i : Nat) (p : Platform) (r : Bool × BounceAnalog),
      polls[i]? = some p → (run false s polls)[i]? = some r →
      p.millis < T + s.interval_millis → r.1 = false ∧ read r.2 = b :=
  hold_before_deadline b T polls s hd (Or.inl hu) hmono hwrap hraw

/-- Witness for C2: settled high, interval 10, raw signal low from `T = 3` on,
polls at 1, 2, 4, 8, 12 and 13; the poll at 12 (index 4) is below `T + 10`,
returns false and leaves `read()` true. -/
theorem C2_no_early_acceptance_witness :
    (run false ⟨0, 10, 3, 0, 0, 1023⟩
      [⟨1, 900, 0⟩, ⟨2, 900, 0⟩, ⟨4, 100, 0⟩, ⟨8, 100, 0⟩, ⟨12, 100, 0⟩, ⟨13, 100, 0⟩])[4]?
      = some (false, ⟨4, 10, 1, 0, 0, 1023⟩) ∧
    (false, (⟨4, 10, 1, 0, 0, 1023⟩ : BounceAnalog)).1 = false ∧
    read (false, (⟨4, 10, 1, 0, 0, 1023⟩ : BounceAnalog)).2 = true :=
  ⟨by decide,
   C2_no_early_acceptance true 3 ⟨0, 10, 3, 0, 0, 1023⟩
    [⟨1, 900, 0⟩, ⟨2, 900, 0⟩, ⟨4, 100, 0⟩, ⟨8, 100, 0⟩, ⟨12, 100, 0⟩, ⟨13, 100, 0⟩]
    (by decide) (by decide) (by decide) (by decide) (by decide) 4 ⟨12, 100, 0⟩
    (false, ⟨4, 10, 1, 0, 0, 1023⟩) rfl (by decide) (by decide)⟩

/-- Claim C4.  Exactly one change report per transition, default build: from a
state with `debouncedValue = unstableCandidate = b`, for every sequence of
polls whose raw boolean is `!b` at every poll: at most one poll returns true;
relative to a poll that returns true, `read()` is `b` after every earlier poll
and `!b` after it and after every later poll; and some poll returns true
whenever a poll of the sequence with clock value below `2 ^ 32` comes at
least `interval_millis` after the first poll, that poll being a later one
(index above 0) when `interval_millis` is 0.  The first two parts hold for any
clock values. -/
theorem C4_one_change_report (b : Bool) (s : BounceAnalog) (polls : List Platform)
    (hd : debouncedValue s = b) (hu : unstableCandidate s = b)
    (hraw : ∀ p ∈ polls, rawAnalog s p.analogRead = !b) :
    (∀ (i j : Nat) (ri rj : Bool × BounceAnalog),
      (run false s polls)[i]? = some ri → (run false s polls)[j]? = some rj →
      ri.1 = true → rj.1 = true → i = j) ∧
    (∀ (k : Nat) (rk : Bool × BounceAnalog),
      (run false s polls)[k]? = some rk → rk.1 = true →
      ∀ (i : Nat) (ri : Bool × BounceAnalog), (run false s polls)[i]? = some ri →
        read ri.2 = (if i < k then b else !b)) ∧
    (∀ (p0 pi : Platform) (i : Nat),
      polls[0]? = some p0 → polls[i]? = some pi → (0 < i ∨ 0 < s.interval_millis) →
      pi.millis < ULONG → p0.millis + s.interval_millis ≤ pi.millis →
      ∃ (k : Nat) (rk : Bool × BounceAnalog),
        (run false s polls)[k]? = some rk ∧ rk.1 = true) := by
  cases polls with
  | nil =>
    refine ⟨?_, ?_, ?_⟩
    · intro i j ri rj hi; simp [run_nil] at hi
    · intro k rk hk; simp [run_nil] at hk
    · intro p0 pi i h0; simp at h0
  | cons p ps =>
    have hp := hraw p (List.mem_cons_self p ps)
    have h1 := settled_first_flip b s p hd hu hp
    have hraw2 : ∀ q ∈ ps, rawAnalog (update false s p).2 q.analogRead = !b := by
      intro q hq
      rw [rawAnalog_update]
      exact hraw q (List.mem_cons_of_mem p hq)
    have hpend := pending_stable b ps (update false s p).2 h1.2.1 h1.2.2.1 hraw2
    rw [run_cons]
    refine ⟨atMostOneTrue_cons_false _ _ h1.1 hpend.1,
      readsFlipAt_cons_false b _ _ h1.1 h1.2.1 hpend.2, ?_⟩
    intro p0 pi i h0 hi hpos hlt hle
    simp only [List.getElem?_cons_zero, Option.some.injEq] at h0
    subst h0
    have hipos : 0 < i := by
      rcases hpos with h | h
      · exact h
      · rcases Nat.eq_zero_or_pos i with hz | hz
        · subst hz
          simp only [List.getElem?_cons_zero, Option.some.injEq] at hi
          subst hi
          omega
        · exact hz
    obtain ⟨i, rfl⟩ : ∃ n, i = n + 1 := ⟨i - 1, by omega⟩
    simp only [List.getElem?_cons_succ] at hi
    have hex : ∃ q ∈ ps, subUL q.millis (update false s p).2.previous_millis
        ≥ (update false s p).2.interval_millis := by
      refine ⟨pi, List.getElem?_mem hi, ?_⟩
      rw [h1.2.2.2.1, h1.2.2.2.2, subUL_eq_sub _ _ (by omega) hlt]
      omega
    obtain ⟨k, rk, hk, hkt⟩ := pending_stable_exists b ps (update false s p).2 h1.2.1 h1.2.2.1
      hraw2 hex
    exact ⟨k + 1, rk, by simpa using hk, hkt⟩

/-- Witness for C4: settled high, interval 10, raw signal low at polls at 1, 5,
11 and 12: the poll at 11 comes 10 ms after the first, and a poll returns
true. -/
theorem C4_one_change_report_witness :
    debouncedValue ⟨0, 10, 3, 0, 0, 1023⟩ = true ∧
    unstableCandidate ⟨0, 10, 3, 0, 0, 1023⟩ = true ∧
    ∃ (k : Nat) (rk : Bool × BounceAnalog),
      (run false ⟨0, 10, 3, 0, 0, 1023⟩
        [⟨1, 100, 0⟩, ⟨5, 100, 0⟩, ⟨11, 100, 0⟩, ⟨12, 100, 0⟩])[k]? = some rk ∧ rk.1 = true :=
  ⟨by decide, by decide,
   (C4_one_change_report true ⟨0, 10, 3, 0, 0, 1023⟩
      [⟨1, 100, 0⟩, ⟨5, 100, 0⟩, ⟨11, 100, 0⟩, ⟨12, 100, 0⟩]
      (by decide) (by decide) (by decide)).2.2 ⟨1, 100, 0⟩ ⟨11, 100, 0⟩ 2 rfl rfl
      (Or.inl (by decide)) (by decide) (by decide)⟩

/-! ## Sequences of calls, lockout build -/

/-- Claim C9.  Minimum spacing, `BOUNCE_LOCK_OUT` build: for every sequence of
polls at non-decreasing clock values below `2 ^ 32`, from any state, any two
polls that both return true have clock values at least `interval_millis`
apart (`update` never changes `interval_millis`); hence of two polls less than
`interval_millis` apart at most one returns true. -/
theorem C9_lockout_min_spacing (s : BounceAnalog) (polls : List Platform)
    (hmono : polls.Pairwise (fun p q => p.millis ≤ q.millis))
    (hwrap : ∀ p ∈ polls, p.millis < ULONG) :
    ∀ (i j : Nat) (pi pj : Platform) (ri rj : Bool × BounceAnalog),
      i < j → polls[i]? = some pi → polls[j]? = some pj →
      (run true s polls)[i]? = some ri → (run true s polls)[j]? = some rj →
      (ri.1 = true → rj.1 = true → pi.millis + s.interval_millis ≤ pj.millis) ∧
      (pj.millis < pi.millis + s.interval_millis → ¬ (ri.1 = true ∧ rj.1 = true)) := by
  have main : ∀ (polls : List Platform) (s : BounceAnalog),
      polls.Pairwise (fun p q => p.millis ≤ q.millis) → (∀ p ∈ polls, p.millis < ULONG) →
      ∀ (i j : Nat) (pi pj : Platform) (ri rj : Bool × BounceAnalog),
        i < j → polls[i]? = some pi → polls[j]? = some pj →
        (run true s polls)[i]? = some ri → (run true s polls)[j]? = some rj →
        ri.1 = true → rj.1 = true → pi.millis + s.interval_millis ≤ pj.millis := by
    intro polls
    induction polls with
    | nil => intro s _ _ i j pi pj ri rj _ hpi; simp at hpi
    | cons p ps ih =>
      intro s hmono hwrap i j pi pj ri rj hij hpi hpj hri hrj hti htj
      rw [List.pairwise_cons] at hmono
      have hwrap2 : ∀ q ∈ ps, q.millis < ULONG :=
        fun q hq => hwrap q (List.mem_cons_of_mem p hq)
      have hint : (update true s p).2.interval_millis = s.interval_millis :=
        (update_lockout_cases s p).1
      rw [run_cons] at hri hrj
      obtain ⟨j, rfl⟩ : ∃ n, j = n + 1 := ⟨j - 1, by omega⟩
      simp only [List.getElem?_cons_succ] at hpj hrj
      cases i with
      | zero =>
        simp only [List.getElem?_cons_zero, Option.some.injEq] at hpi hri
        subst hpi hri
        have ha := lockout_accepted s p hti
        have := lockout_after ps (update true s p).2
          (fun q hq => by rw [ha.2.1]; exact hmono.1 q hq) hmono.2 hwrap2 j pj rj hpj hrj htj
        rw [ha.2.1, hint] at this
        exact this
      | succ i =>
        simp only [List.getElem?_cons_succ] at hpi hri
        have := ih (update true s p).2 hmono.2 hwrap2 i j pi pj ri rj (by omega) hpi hpj hri hrj
          hti htj
        rw [hint] at this
        exact this
  intro i j pi pj ri rj hij hpi hpj hri hrj
  refine ⟨main polls s hmono hwrap i j pi pj ri rj hij hpi hpj hri hrj, ?_⟩
  intro hlt hboth
  have := main polls s hmono hwrap i j pi pj ri rj hij hpi hpj hri hrj hboth.1 hboth.2
  omega

/-- Witness for C9: interval 50, polls at 50 (accepted), 60 (locked out) and
100 (accepted). -/
theorem C9_lockout_min_spacing_witness :
    (run true ⟨0, 50, 0, 0, 0, 1023⟩ [⟨50, 0, 1⟩, ⟨60, 0, 0⟩, ⟨100, 0, 0⟩])[0]?
      = some (true, ⟨50, 50, 9, 0, 0, 1023⟩) ∧
    (run true ⟨0, 50, 0, 0, 0, 1023⟩ [⟨50, 0, 1⟩, ⟨60, 0, 0⟩, ⟨100, 0, 0⟩])[2]?
      = some (true, ⟨100, 50, 8, 0, 0, 1023⟩) ∧
    (⟨50, 0, 1⟩ : Platform).millis + (⟨0, 50, 0, 0, 0, 1023⟩ : BounceAnalog).interval_millis
      ≤ (⟨100, 0, 0⟩ : Platform).millis :=
  ⟨by decide, by decide,
   (C9_lockout_min_spacing ⟨0, 50, 0, 0, 0, 1023⟩ [⟨50, 0, 1⟩, ⟨60, 0, 0⟩, ⟨100, 0, 0⟩]
      (by decide) (by decide) 0 2 ⟨50, 0, 1⟩ ⟨100, 0, 0⟩ (true, ⟨50, 50, 9, 0, 0, 1023⟩)
      (true, ⟨100, 50, 8, 0, 0, 1023⟩) (by decide) rfl rfl (by decide) (by decide)).1 rfl rfl⟩

/-! ## Constant raw input -/

/-- Counterexample to C10 as stated.  Default build: attach with sample 1000,
then polls at 1 and 11 with sample 100; the raw boolean is the same (false) at
both polls and the second poll returns true.  Lockout build: attach with
sample 1000, then polls at 5 and 20 with `digitalRead` 0; the second poll
returns true. -/
theorem C10_counterexample :
    (rawInput false (attach false new (analogPoll 0 1000) 0) (analogPoll 1 100) = false ∧
      rawInput false (attach false new (analogPoll 0 1000) 0) (analogPoll 11 100) = false ∧
      (run false (attach false new (analogPoll 0 1000) 0)
        [analogPoll 1 100, analogPoll 11 100]).map Prod.fst = [false, true]) ∧
    (rawInput true (attach true new ⟨0, 1000, 1⟩ 0) ⟨5, 1000, 0⟩ = false ∧
      rawInput true (attach true new ⟨0, 1000, 1⟩ 0) ⟨20, 1000, 0⟩ = false ∧
      (run true (attach true new ⟨0, 1000, 1⟩ 0)
        [⟨5, 1000, 0⟩, ⟨20, 1000, 0⟩]).map Prod.fst = [false, true]) := by
  decide

/-- Claim C10, amended.  In both builds, for every sequence of polls following
an attach in which the raw boolean is the same at every poll, at most one poll
returns true: every poll after a poll that returned true returns false.  The
poll that returns true need not be the first. -/
theorem C10_constant_raw_one_change (lockOut : Bool) (s0 : BounceAnalog) (hw0 : Platform)
    (pin : Int) (c : Bool) (polls : List Platform)
    (hraw : ∀ p ∈ polls, rawInput lockOut (attach lockOut s0 hw0 pin) p = c) :
    ∀ (i j : Nat) (ri rj : Bool × BounceAnalog),
      i < j → (run lockOut (attach lockOut s0 hw0 pin) polls)[i]? = some ri →
      (run lockOut (attach lockOut s0 hw0 pin) polls)[j]? = some rj →
      ri.1 = true → rj.1 = false := by
  have h : AtMostOneTrue (run lockOut (attach lockOut s0 hw0 pin) polls) := by
    cases lockOut
    · exact const_stable c polls _ (by simpa [rawInput] using hraw)
    · exact const_lockout c polls _ (by simpa [rawInput] using hraw)
  intro i j ri rj hij hi hj hti
  cases htj : rj.1 with
  | false => rfl
  | true => exact absurd (h i j ri rj hi hj hti htj) (by omega)

/-- Witness for C10: default build, attach with sample 1000, polls at 1, 11 and
12 with sample 100; the poll at 11 returns true and the poll at 12 returns
false. -/
theorem C10_constant_raw_one_change_witness :
    (run false (attach false new (analogPoll 0 1000) 0)
      [analogPoll 1 100, analogPoll 11 100, analogPoll 12 100])[1]?
      = some (true, ⟨11, 10, 8, 0, 0, 1023⟩) ∧
    (run false (attach false new (analogPoll 0 1000) 0)
      [analogPoll 1 100, analogPoll 11 100, analogPoll 12 100])[2]?
      = some (false, ⟨11, 10, 0, 0, 0, 1023⟩) ∧
    (false, (⟨11, 10, 0, 0, 0, 1023⟩ : BounceAnalog)).1 = false :=
  ⟨by decide, by decide,
   C10_constant_raw_one_change false new (analogPoll 0 1000) 0 false
     [analogPoll 1 100, analogPoll 11 100, analogPoll 12 100] (by decide) 1 2
     (true, ⟨11, 10, 8, 0, 0, 1023⟩) (false, ⟨11, 10, 0, 0, 0, 1023⟩) (by decide) (by decide)
     (by decide) rfl⟩

/-! ## Configuration, attachment and queries -/

theorem rose_eq (s : BounceAnalog) :
    rose s = (debouncedValue s && changedSinceLastPoll s) := rfl

theorem fell_eq (s : BounceAnalog) :
    fell s = (!debouncedValue s && changedSinceLastPoll s) := rfl

/-- In both builds the value returned by `update` is the `changedSinceLastPoll`
flag after the call, and it is true exactly when `debouncedValue` moved. -/
theorem update_result (lockOut : Bool) (s : BounceAnalog) (hw : Platform) :
    changedSinceLastPoll (update lockOut s hw).2 = (update lockOut s hw).1 ∧
    (update lockOut s hw).1
      = (debouncedValue (update lockOut s hw).2 != debouncedValue s) := by
  cases lockOut
  · have h := update_stable_cases s hw
    refine ⟨h.2.2.2.2.1, ?_⟩
    have h6 := h.2.2.2.2.2
    split_ifs at h6 with h1 h2
    · rw [h6.1, h6.2.1]; simp
    · rw [h6.1, h6.2.1]
      cases hd : debouncedValue s <;> cases hr : rawAnalog s hw.analogRead <;> simp_all
    · rw [h6.1, h6.2.1]; simp
  · have h := update_lockout_cases s hw
    refine ⟨h.2.2.2.2.1, ?_⟩
    have h7 := h.2.2.2.2.2.2
    split_ifs at h7 with h1 h2
    · rw [h7.1, h7.2.2.1]; simp
    · rw [h7.1, h7.2.1]
      cases hd : debouncedValue s <;> cases hr : rawDigital hw.digitalRead <;> simp_all
    · rw [h7.1, h7.2.1]; simp

/-- Counterexample to C11 as stated: on a freshly constructed object
`debouncedValue` is false, and `attach` with sample 1000 makes it true. -/
theorem C11_counterexample :
    debouncedValue new = false ∧
    debouncedValue (attach false new (analogPoll 0 1000) 0) = true ∧
    debouncedValue (attach true new (analogPoll 0 1000) 0) = true := by
  decide

/-- Claim C11, amended.  For every state, `interval(ms)` and
`setCurrentAsMax()` leave `debouncedValue` (the whole `state` register) as it
was; `attach(pin)` sets `debouncedValue` to the thresholded sample, whatever it
was before. -/
theorem C11_debounced_under_configuration (lockOut : Bool) (s : BounceAnalog) (hw : Platform)
    (ms : Nat) (pin : Int) :
    debouncedValue (interval s ms) = debouncedValue s ∧
    (interval s ms).state = s.state ∧
    debouncedValue (setCurrentAsMax s hw) = debouncedValue s ∧
    (setCurrentAsMax s hw).state = s.state ∧
    debouncedValue (attach lockOut s hw pin)
      = decide (hw.analogRead > (s.m_analogMax - s.m_analogMin).tdiv 2) := by
  refine ⟨rfl, rfl, rfl, rfl, ?_⟩
  by_cases h : hw.analogRead > (s.m_analogMax - s.m_analogMin).tdiv 2 <;> cases lockOut <;>
    simp [attach, debouncedValue, bit_def, DEBOUNCED_STATE, UNSTABLE_STATE, h, bit_set, bit_BV,
      bit_zero_left]

/-- Claim C12.  For every state reached by an `update` call (either build, any
state before, any input): `rose()` or `fell()` is true exactly when that call
returned true, and the two are never both true; so a call that returned true
leaves exactly one of them true. -/
theorem C12_rose_fell_follow_result (lockOut : Bool) (s : BounceAnalog) (hw : Platform) :
    ((rose (update lockOut s hw).2 = true ∨ fell (update lockOut s hw).2 = true)
      ↔ (update lockOut s hw).1 = true) ∧
    ¬ (rose (update lockOut s hw).2 = true ∧ fell (update lockOut s hw).2 = true) := by
  have h := (update_result lockOut s hw).1
  rw [rose_eq, fell_eq, h]
  cases debouncedValue (update lockOut s hw).2 <;> cases (update lockOut s hw).1 <;> simp

/-- Claim C13.  After any `update` call (either build, any state before),
`rose()` is true iff `debouncedValue` was false before the call and is true
after it, and `fell()` is true iff it was true before and is false after. -/
theorem C13_rose_fell_direction (lockOut : Bool) (s : BounceAnalog) (hw : Platform) :
    rose (update lockOut s hw).2
      = (!debouncedValue s && debouncedValue (update lockOut s hw).2) ∧
    fell (update lockOut s hw).2
      = (debouncedValue s && !debouncedValue (update lockOut s hw).2) := by
  have h := update_result lockOut s hw
  rw [rose_eq, fell_eq, h.1, h.2]
  cases debouncedValue (update lockOut s hw).2 <;> cases debouncedValue s <;> simp

/-- Claim C14.  For every value of the `state` register, reachable or not,
`rose()` and `fell()` are not both true. -/
theorem C14_rose_fell_exclusive (s : BounceAnalog) :
    ¬ (rose s = true ∧ fell s = true) := by
  rw [rose_eq, fell_eq]
  cases debouncedValue s <;> cases changedSinceLastPoll s <;> simp

/-- Claim C15.  `interval(ms)`, for `ms` a `uint16_t` value, changes
`interval_millis` to `ms` and no other field; `setCurrentAsMax()` with current
sample `v` changes `m_analogMax` to `v` and no other field. -/
theorem C15_configuration_frame (s : BounceAnalog) (hw : Platform) (ms : Nat)
    (hms : ms < UINT16) :
    interval s ms = { s with interval_millis := ms } ∧
    setCurrentAsMax s hw = { s with m_analogMax := hw.analogRead } := by
  refine ⟨?_, rfl⟩
  unfold interval
  rw [Nat.mod_eq_of_lt hms]

/-- Witness for C15: interval 25 and sample 700 on a fresh object. -/
theorem C15_configuration_frame_witness :
    interval new 25 = ⟨0, 25, 0, 0, 0, 1023⟩ ∧
    setCurrentAsMax new ⟨0, 700, 0⟩ = ⟨0, 10, 0, 0, 0, 700⟩ :=
  C15_configuration_frame new ⟨0, 700, 0⟩ 25 (by decide)

/-! ## Zero interval -/

/-- Counterexample to C16 as stated: default build, interval 0, both flags
false; a poll with sample 1000 (raw boolean true, different from
`debouncedValue`) returns false and leaves `debouncedValue` false. -/
theorem C16_counterexample :
    (⟨0, 0, 0, 0, 0, 1023⟩ : BounceAnalog).interval_millis = 0 ∧
    rawInput false ⟨0, 0, 0, 0, 0, 1023⟩ ⟨5, 1000, 1⟩ = true ∧
    debouncedValue ⟨0, 0, 0, 0, 0, 1023⟩ = false ∧
    (update false ⟨0, 0, 0, 0, 0, 1023⟩ ⟨5, 1000, 1⟩).1 = false ∧
    debouncedValue (update false ⟨0, 0, 0, 0, 0, 1023⟩ ⟨5, 1000, 1⟩).2 = false := by
  decide

/-- Claim C16, amended.  With `interval_millis = 0`, for every state and every
poll whose raw boolean differs from `debouncedValue`: in the `BOUNCE_LOCK_OUT`
build that poll sets `debouncedValue` to the raw boolean and returns true; in
the default build it does so when the raw boolean equals `unstableCandidate`,
and otherwise it returns false, keeps `debouncedValue` and records the raw
boolean as the candidate, so that a next poll with the same raw boolean sets
`debouncedValue` to it and returns true. -/
theorem C16_zero_interval (s : BounceAnalog) (hw hw2 : Platform) (h0 : s.interval_millis = 0) :
    (rawDigital hw.digitalRead ≠ debouncedValue s →
      (update true s hw).1 = true ∧
      debouncedValue (update true s hw).2 = rawDigital hw.digitalRead) ∧
    (rawAnalog s hw.analogRead ≠ debouncedValue s →
      rawAnalog s hw.analogRead = unstableCandidate s →
      (update false s hw).1 = true ∧
      debouncedValue (update false s hw).2 = rawAnalog s hw.analogRead) ∧
    (rawAnalog s hw.analogRead ≠ debouncedValue s →
      rawAnalog s hw.analogRead ≠ unstableCandidate s →
      (update false s hw).1 = false ∧
      debouncedValue (update false s hw).2 = debouncedValue s ∧
      unstableCandidate (update false s hw).2 = rawAnalog s hw.analogRead ∧
      (rawAnalog s hw2.analogRead = rawAnalog s hw.analogRead →
        (update false (update false s hw).2 hw2).1 = true ∧
        debouncedValue (update false (update false s hw).2 hw2).2
          = rawAnalog s hw.analogRead)) := by
  have hel : ∀ (t : BounceAnalog) (now : Nat), t.interval_millis = 0 →
      intervalElapsed t now = true := by
    intro t now ht
    simp [intervalElapsed, ht]
  refine ⟨?_, ?_, ?_⟩
  · intro hne
    have hc := update_lockout_cases s hw
    have h7 := hc.2.2.2.2.2.2
    rw [if_neg (by rw [h0]; exact Nat.not_lt_zero _), if_pos hne] at h7
    exact ⟨h7.1, h7.2.1⟩
  · intro hne heq
    have hc := update_stable_cases s hw
    have h6 := hc.2.2.2.2.2
    rw [if_neg (not_not.mpr heq), if_pos ⟨hel s hw.millis h0, fun h => hne h.symm⟩] at h6
    exact ⟨h6.1, h6.2.1⟩
  · intro hne hneu
    have hc := update_stable_cases s hw
    have h6 := hc.2.2.2.2.2
    rw [if_pos hneu] at h6
    refine ⟨h6.1, h6.2.1, h6.2.2.1, ?_⟩
    intro h2
    have hc2 := update_stable_cases (update false s hw).2 hw2
    have h62 := hc2.2.2.2.2.2
    have hraw2 : rawAnalog (update false s hw).2 hw2.analogRead = rawAnalog s hw.analogRead := by
      rw [rawAnalog_update, h2]
    rw [hraw2, if_neg (not_not.mpr h6.2.2.1.symm),
      if_pos ⟨hel _ hw2.millis (by rw [hc.1, h0]), by rw [h6.2.1]; exact fun h => hne h.symm⟩]
      at h62
    exact ⟨h62.1, h62.2.1⟩

/-- Witness for C16: interval 0 and both flags false.  In the lockout build a
poll with `digitalRead` 1 returns true at once; in the default build a first
poll with sample 1000 returns false and a second one returns true. -/
theorem C16_zero_interval_witness :
    ((update true ⟨0, 0, 0, 0, 0, 1023⟩ ⟨5, 1000, 1⟩).1 = true ∧
      debouncedValue (update true ⟨0, 0, 0, 0, 0, 1023⟩ ⟨5, 1000, 1⟩).2
        = rawDigital (⟨5, 1000, 1⟩ : Platform).digitalRead) ∧
    ((update false ⟨0, 0, 0, 0, 0, 1023⟩ ⟨5, 1000, 1⟩).1 = false ∧
      (update false (update false ⟨0, 0, 0, 0, 0, 1023⟩ ⟨5, 1000, 1⟩).2 ⟨5, 900, 1⟩).1 = true) :=
  ⟨(C16_zero_interval ⟨0, 0, 0, 0, 0, 1023⟩ ⟨5, 1000, 1⟩ ⟨5, 900, 1⟩ rfl).1 (by decide),
   ((C16_zero_interval ⟨0, 0, 0, 0, 0, 1023⟩ ⟨5, 1000, 1⟩ ⟨5, 900, 1⟩ rfl).2.2
      (by decide) (by decide)).1,
   (((C16_zero_interval ⟨0, 0, 0, 0, 0, 1023⟩ ⟨5, 1000, 1⟩ ⟨5, 900, 1⟩ rfl).2.2
      (by decide) (by decide)).2.2.2 (by decide)).1⟩

/-! ## The threshold rule -/

/-- After `attach` both value flags hold the thresholded sample, and the
thresholds are those of the state before. -/
theorem attach_flags (lockOut : Bool) (s : BounceAnalog) (hw : Platform) (pin : Int) :
    debouncedValue (attach lockOut s hw pin) = rawAnalog s hw.analogRead ∧
    unstableCandidate (attach lockOut s hw pin) = rawAnalog s hw.analogRead ∧
    (attach lockOut s hw pin).m_analogMin = s.m_analogMin ∧
    (attach lockOut s hw pin).m_analogMax = s.m_analogMax := by
  by_cases h : hw.analogRead > (s.m_analogMax - s.m_analogMin).tdiv 2 <;> cases lockOut <;>
    simp [attach, rawAnalog, debouncedValue, unstableCandidate, bit_def, DEBOUNCED_STATE,
      UNSTABLE_STATE, h, bit_set, bit_BV, bit_zero_left]

/-- After an `update` call of the default build the candidate flag holds the
thresholded sample of that call. -/
theorem update_candidate_is_raw (s : BounceAnalog) (hw : Platform) :
    unstableCandidate (update false s hw).2 = rawAnalog s hw.analogRead := by
  have h6 := (update_stable_cases s hw).2.2.2.2.2
  split_ifs at h6 with h1 h2
  · exact h6.2.2.1
  · rw [h6.2.2.1]; exact (not_not.mp h1).symm
  · rw [h6.2.2.1]; exact (not_not.mp h1).symm

/-- Claim C17.  Threshold rule and tie-break.  In `attach` (both value flags)
and in the default `update` (the candidate flag), the raw boolean is
`sample > (m_analogMax - m_analogMin) / 2` with C division; for every pair of
bounds a sample equal to `(m_analogMax - m_analogMin) / 2` gives false and a
sample one greater gives true.  The threshold is not
`m_analogMin + (m_analogMax - m_analogMin) / 2` (bounds 100 and 200: sample 60
reads true), and the division truncates toward zero (bounds 3 and 0: the
threshold is -1, so sample -1 reads false). -/
theorem C17_threshold_rule (lockOut : Bool) (s : BounceAnalog) (hw : Platform) (pin : Int)
    (t : Nat) (d : Int) :
    debouncedValue (attach lockOut s hw pin)
      = decide (hw.analogRead > (s.m_analogMax - s.m_analogMin).tdiv 2) ∧
    unstableCandidate (attach lockOut s hw pin)
      = decide (hw.analogRead > (s.m_analogMax - s.m_analogMin).tdiv 2) ∧
    unstableCandidate (update false s hw).2
      = decide (hw.analogRead > (s.m_analogMax - s.m_analogMin).tdiv 2) ∧
    debouncedValue (attach lockOut s ⟨t, (s.m_analogMax - s.m_analogMin).tdiv 2, d⟩ pin) = false ∧
    debouncedValue (attach lockOut s ⟨t, (s.m_analogMax - s.m_analogMin).tdiv 2 + 1, d⟩ pin)
      = true ∧
    unstableCandidate (update false s ⟨t, (s.m_analogMax - s.m_analogMin).tdiv 2, d⟩).2 = false ∧
    unstableCandidate (update false s ⟨t, (s.m_analogMax - s.m_analogMin).tdiv 2 + 1, d⟩).2
      = true ∧
    debouncedValue (attach lockOut ⟨0, 10, 0, 0, 100, 200⟩ ⟨t, 60, d⟩ pin) = true ∧
    debouncedValue (attach lockOut ⟨0, 10, 0, 0, 3, 0⟩ ⟨t, -1, d⟩ pin) = false := by
  have ha := fun (s : BounceAnalog) (hw : Platform) => attach_flags lockOut s hw pin
  have hu := update_candidate_is_raw
  simp only [rawAnalog] at ha hu
  refine ⟨(ha s hw).1, (ha s hw).2.1, hu s hw, ?_, ?_, ?_, ?_, ?_, ?_⟩
  · rw [(ha _ _).1]; simp
  · rw [(ha _ _).1]; simp
  · rw [hu]; simp
  · rw [hu]; simp
  · rw [(ha _ _).1]
    show decide ((60 : Int) > ((200 : Int) - 100).tdiv 2) = true
    decide
  · rw [(ha _ _).1]
    show decide ((-1 : Int) > ((0 : Int) - 3).tdiv 2) = false
    decide

/-! ## The raw input of the lockout build -/

/-- Claim C18, the code at the failing input.  The `update` of the
`BOUNCE_LOCK_OUT` build does not look at the analog sample: its result is the
same for every two values of `analogRead`.  After `setCurrentAsMax()` with
sample 200 (threshold 100) and `attach` with sample 50, a poll at clock 20
with analog sample 150 and `digitalRead` 0 has thresholded sample true,
different from `debouncedValue`, and is outside the lockout window; it
returns false and `read()` stays false.  With analog sample 50 (thresholded
false, equal to `debouncedValue`) and `digitalRead` 1 it returns true. -/
theorem C18_lockout_reads_digital :
    (∀ (s : BounceAnalog) (t : Nat) (v v2 d : Int),
      update true s ⟨t, v, d⟩ = update true s ⟨t, v2, d⟩) ∧
    (rawAnalog (attach true (setCurrentAsMax new ⟨0, 200, 0⟩) ⟨0, 50, 0⟩ 0) 150 = true ∧
      debouncedValue (attach true (setCurrentAsMax new ⟨0, 200, 0⟩) ⟨0, 50, 0⟩ 0) = false ∧
      intervalElapsed (attach true (setCurrentAsMax new ⟨0, 200, 0⟩) ⟨0, 50, 0⟩ 0) 20 = true ∧
      (update true (attach true (setCurrentAsMax new ⟨0, 200, 0⟩) ⟨0, 50, 0⟩ 0) ⟨20, 150, 0⟩).1
        = false ∧
      read (update true (attach true (setCurrentAsMax new ⟨0, 200, 0⟩) ⟨0, 50, 0⟩ 0)
        ⟨20, 150, 0⟩).2 = false) ∧
    (rawAnalog (attach true (setCurrentAsMax new ⟨0, 200, 0⟩) ⟨0, 50, 0⟩ 0) 50 = false ∧
      (update true (attach true (setCurrentAsMax new ⟨0, 200, 0⟩) ⟨0, 50, 0⟩ 0) ⟨20, 50, 1⟩).1
        = true) := by
  refine ⟨fun s t v v2 d => rfl, by decide, by decide⟩

/-! ## Steady input -/

/-- After every call of a run the `changedSinceLastPoll` flag is the value the
call returned. -/
theorem run_changed (lockOut : Bool) (polls : List Platform) (s : BounceAnalog) :
    ∀ r ∈ run lockOut s polls, changedSinceLastPoll r.2 = r.1 := by
  induction polls generalizing s with
  | nil => intro r hr; simp [run_nil] at hr
  | cons p ps ih =>
    intro r hr
    rw [run_cons, List.mem_cons] at hr
    rcases hr with hr | hr
    · subst hr
      exact (update_result lockOut s p).1
    · exact ih (update lockOut s p).2 r hr

/-- Claim C19.  Steady input never reports a change: in both builds, after
`attach` with a sample whose thresholded boolean is `b`, for every sequence of
polls (any clock values, any `interval_millis`) whose raw boolean is `b` at
every poll, every poll returns false, `read()` is `b` after it, and `rose()`
and `fell()` are false after it. -/
theorem C19_steady_input (lockOut : Bool) (s0 : BounceAnalog) (hw0 : Platform) (pin : Int)
    (b : Bool) (polls : List Platform)
    (hb : rawAnalog s0 hw0.analogRead = b)
    (hraw : ∀ p ∈ polls, rawInput lockOut (attach lockOut s0 hw0 pin) p = b) :
    ∀ r ∈ run lockOut (attach lockOut s0 hw0 pin) polls,
      r.1 = false ∧ read r.2 = b ∧ rose r.2 = false ∧ fell r.2 = false := by
  have ha := attach_flags lockOut s0 hw0 pin
  have hst : ∀ r ∈ run lockOut (attach lockOut s0 hw0 pin) polls, r.1 = false ∧ read r.2 = b := by
    cases lockOut
    · exact steady_stable b polls _ (by rw [ha.1, hb]) (by rw [ha.2.1, hb])
        (by simpa [rawInput] using hraw)
    · exact steady_lockout b polls _ (by rw [ha.1, hb]) (by simpa [rawInput] using hraw)
  intro r hr
  have h1 := hst r hr
  have h2 := run_changed lockOut polls _ r hr
  rw [h1.1] at h2
  refine ⟨h1.1, h1.2, ?_, ?_⟩
  · rw [rose_eq, h2]; simp
  · rw [fell_eq, h2]; simp

/-- Witness for C19: default build, attach with sample 1000 at clock 0, then
polls at 5 and 50 with samples 900 and 800. -/
theorem C19_steady_input_witness :
    (false, (⟨0, 10, 3, 0, 0, 1023⟩ : BounceAnalog))
      ∈ run false (attach false new ⟨0, 1000, 0⟩ 0) [⟨5, 900, 0⟩, ⟨50, 800, 0⟩] ∧
    ((false, (⟨0, 10, 3, 0, 0, 1023⟩ : BounceAnalog)).1 = false ∧
      read (false, (⟨0, 10, 3, 0, 0, 1023⟩ : BounceAnalog)).2 = true ∧
      rose (false, (⟨0, 10, 3, 0, 0, 1023⟩ : BounceAnalog)).2 = false ∧
      fell (false, (⟨0, 10, 3, 0, 0, 1023⟩ : BounceAnalog)).2 = false) :=
  ⟨by decide,
   C19_steady_input false new ⟨0, 1000, 0⟩ 0 true [⟨5, 900, 0⟩, ⟨50, 800, 0⟩] (by decide)
     (by decide) (false, ⟨0, 10, 3, 0, 0, 1023⟩) (by decide)⟩

/-! ## Clock wrap-around -/

/-- The unsigned difference recovers the elapsed time across a wrap of the
counter. -/
theorem subUL_wrap (p d : Nat) (hd : d < ULONG) : subUL ((p + d) % ULONG) p = d := by
  unfold subUL ULONG at *
  omega

/-- Claim C20.  Clock wrap-around.  The elapsed-time test of `update` is
`(millis() - previous_millis) mod 2 ^ 32 >= interval_millis`, the interval
being a 16-bit value (`interval` stores its argument modulo `2 ^ 16`).  For
every stored timestamp and true elapsed time `d < 2 ^ 32`, when the clock reads
`(previous_millis + d) mod 2 ^ 32` the unsigned difference is `d`, so the test
holds iff `d >= interval_millis`, also when the counter has wrapped; and in
both builds a poll whose raw boolean calls for a change (in the default build:
equal to the candidate, different from `debouncedValue`) returns true iff
`d >= interval_millis`. -/
theorem C20_elapsed_test_wraps (s : BounceAnalog) (hw : Platform) (d ms : Nat)
    (hd : d < ULONG) (hnow : hw.millis = (s.previous_millis + d) % ULONG) :
    subUL hw.millis s.previous_millis = d ∧
    (subUL hw.millis s.previous_millis ≥ s.interval_millis ↔ d ≥ s.interval_millis) ∧
    (rawDigital hw.digitalRead ≠ debouncedValue s →
      ((update true s hw).1 = true ↔ d ≥ s.interval_millis)) ∧
    (rawAnalog s hw.analogRead = unstableCandidate s →
      rawAnalog s hw.analogRead ≠ debouncedValue s →
      ((update false s hw).1 = true ↔ d ≥ s.interval_millis)) ∧
    (interval s ms).interval_millis = ms % UINT16 ∧ (interval s ms).interval_millis < ULONG := by
  have hsub : subUL hw.millis s.previous_millis = d := by
    rw [hnow]; exact subUL_wrap s.previous_millis d hd
  refine ⟨hsub, by rw [hsub], ?_, ?_, rfl, ?_⟩
  · intro hne
    have h7 := (update_lockout_cases s hw).2.2.2.2.2.2
    rw [hsub] at h7
    rw [if_pos hne] at h7
    split_ifs at h7 with h1
    · rw [h7.1]; simp; omega
    · rw [h7.1]; simp; omega
  · intro heq hne
    have h6 := (update_stable_cases s hw).2.2.2.2.2
    simp only [intervalElapsed, hsub, decide_eq_true_eq] at h6
    rw [if_neg (not_not.mpr heq)] at h6
    split_ifs at h6 with h2
    · rw [h6.1]; simp; exact h2.1
    · rw [h6.1]; simp
      by_contra hge
      exact h2 ⟨by omega, fun h => hne h.symm⟩
  · show ms % UINT16 < ULONG
    have := Nat.mod_lt ms (show UINT16 > 0 by decide)
    unfold UINT16 ULONG at *
    omega

/-- Witness for C20: timestamp `2 ^ 32 - 5` stored, 10 ms later the counter has
wrapped and reads 5; with interval 10 the lockout poll accepts a differing
input. -/
theorem C20_elapsed_test_wraps_witness :
    subUL (⟨5, 0, 1⟩ : Platform).millis
      (⟨4294967291, 10, 0, 0, 0, 1023⟩ : BounceAnalog).previous_millis = 10 ∧
    (update true ⟨4294967291, 10, 0, 0, 0, 1023⟩ ⟨5, 0, 1⟩).1 = true :=
  ⟨(C20_elapsed_test_wraps ⟨4294967291, 10, 0, 0, 0, 1023⟩ ⟨5, 0, 1⟩ 10 0 (by decide)
      (by decide)).1,
   ((C20_elapsed_test_wraps ⟨4294967291, 10, 0, 0, 0, 1023⟩ ⟨5, 0, 1⟩ 10 0 (by decide)
      (by decide)).2.2.1 (by decide)).mpr (by decide)⟩

end BounceAnalog
